import Mathlib

/-!
Verification development for the Mython interpreter core
(indentation-aware lexer `parse::Lexer` in src/mython/lexer.cpp,
runtime value model in src/unnamed/part_000 (runtime.cpp), and the
AST evaluator `ast::*::Execute` in the statement.cpp part of
src/mython/lexer.cpp).

The C++ code is shallowly embedded:
  * the input character stream (`std::istream`) becomes a `List Char`
    consumed from the front; `peek` at end of stream corresponds to
    `List.head? = none` and `input.eof()` to the list being empty
    (the eofbit is set exactly by a peek at the end, and every path
    that tests `eof()` has peeked first);
  * heap mutation (instance field maps, closures) becomes explicit
    state threading through `St`;
  * C++ exceptions become the error channel of `Except`; the error
    carries the state at the throw point, because output already
    written and fields already mutated survive an unwind;
  * a failed `assert` and a null-pointer dereference are modelled as
    the distinguished errors `assertFail` / `nullDeref`, distinct
    from thrown `LexerError` / `std::runtime_error` values;
  * unbounded recursion (method dispatch can re-enter the evaluator)
    is controlled by explicit fuel; running out of fuel is the
    distinguished error `outOfFuel`, never a normal result, so any
    theorem conditioned on a successful run is fuel-independent.

The initial lexer state (`current_indent_ = 0`, `new_line_ = true`)
is taken from the specification of the scanning algorithm, since
lexer.h (which holds the member initializers) is not part of the
sources; everything else is translated from the .cpp files.
-/

namespace Mython

/-! ## Lexer: token type (parse::token_type) -/

/-- Token kinds of the lexer, one constructor per `token_type` variant. -/
inductive Tok where
  | classT | returnT | ifT | elseT | defT | printT
  | orT | andT | notT | noneT | trueT | falseT
  | id (value : String)
  | number (value : Nat)
  | str (value : String)
  | char (value : Char)
  | newline | indent | dedent
  | eq | notEq | lessOrEq | greaterOrEq
  | eof
deriving DecidableEq

/-- Failure modes of the lexer.  `lexerError` is a thrown
`parse::LexerError` with its message; `assertFail` is a failed
`assert` (the odd-indent check in `Lexer::CalculateIndent`);
`stoiOutOfRange` is the `std::out_of_range` thrown by `std::stoi`
on a numeric literal exceeding `int`; `outOfFuel` is the modelling
artifact for exhausted fuel. -/
inductive LexErr where
  | lexerError (msg : String)
  | assertFail
  | stoiOutOfRange
  | outOfFuel
deriving DecidableEq

/-- The single-quote character, written via its code point to keep
the source free of quote-character literals. -/
def quoteChar : Char := Char.ofNat 39

/-- `IsStringOpening` from lexer.cpp. -/
def IsStringOpening (c : Char) : Bool := c = quoteChar || c = '"'

/-- `IsDigit` from lexer.cpp. -/
def IsDigit (c : Char) : Bool := decide ('0' ≤ c) && decide (c ≤ '9')

/-- `IsIdOpening` from lexer.cpp. -/
def IsIdOpening (c : Char) : Bool :=
  (decide ('A' ≤ c) && decide (c ≤ 'Z')) ||
  (decide ('a' ≤ c) && decide (c ≤ 'z')) || c = '_'

/-- `IsIdCharacter` from lexer.cpp. -/
def IsIdCharacter (c : Char) : Bool := IsIdOpening c || IsDigit c

/-- The keyword table `KEY_WORDS_TOKENS` from lexer.cpp. -/
def keywordTok (s : String) : Option Tok :=
  if s = "class" then some .classT
  else if s = "return" then some .returnT
  else if s = "if" then some .ifT
  else if s = "else" then some .elseT
  else if s = "def" then some .defT
  else if s = "print" then some .printT
  else if s = "or" then some .orT
  else if s = "None" then some .noneT
  else if s = "and" then some .andT
  else if s = "not" then some .notT
  else if s = "True" then some .trueT
  else if s = "False" then some .falseT
  else none

/-- Body of `LoadStringToken`: the opening quote `q` has been
consumed; scan until the matching quote, handling the four
recognized escapes and rejecting raw newline / carriage return and
any other escape.  Returns the string contents and the remaining
input. -/
def loadStringBody (q : Char) : List Char → String → Except LexErr (String × List Char)
  | [], _ => .error (.lexerError "String parsing error")
  | c :: rest, acc =>
    if c = q then .ok (acc, rest)
    else if c = '\\' then
      match rest with
      | [] => .error (.lexerError "String parsing error")
      | e :: rest2 =>
        if e = 'n' then loadStringBody q rest2 (acc.push '\n')
        else if e = 't' then loadStringBody q rest2 (acc.push '\t')
        else if e = quoteChar then loadStringBody q rest2 (acc.push quoteChar)
        else if e = '"' then loadStringBody q rest2 (acc.push '"')
        else .error (.lexerError ("Unrecognized escape sequence \\".push e))
    else if c = '\n' ∨ c = '\r' then .error (.lexerError "Unexpected end of line")
    else loadStringBody q rest (acc.push c)

/-- Digit-run accumulator of `LoadNumberToken` (`std::stoi` on the
collected digit string). -/
def digitsToNat (ds : List Char) : Nat :=
  ds.foldl (fun a c => a * 10 + (c.toNat - 48)) 0

/-- `INT_MAX`: `std::stoi` throws `std::out_of_range` beyond it. -/
def intMax : Nat := 2147483647

/-- `LoadOperatorsToken` from lexer.cpp: read one character; for
`=`, `!`, `>`, `<` followed by `=`, consume both and emit the
compound token, otherwise emit `Char`. -/
def loadOperatorsToken : List Char → Tok × List Char
  | [] => (.char (Char.ofNat 255), [])
  | c1 :: rest =>
    if c1 = '=' ∨ c1 = '!' ∨ c1 = '>' ∨ c1 = '<' then
      match rest with
      | '=' :: rest2 =>
        (if c1 = '=' then .eq
         else if c1 = '!' then .notEq
         else if c1 = '>' then .greaterOrEq else .lessOrEq, rest2)
      | _ => (.char c1, rest)
    else (.char c1, rest)

/-- Lexer state: remaining input, tokens pushed to the buffer so
far, `current_indent_` and `new_line_`. -/
structure LexSt where
  inp : List Char
  toks : List Tok
  indent : Nat
  newline : Bool
deriving DecidableEq

/-- `Lexer::CalculateIndent`: count leading spaces; a line whose
spaces are followed by a newline is blank for layout; otherwise the
count must be even (`assert`), and `|count/2 - current_indent_|`
Indent or Dedent tokens are pushed while `current_indent_` becomes
`count/2` and `new_line_` is cleared. -/
def calcIndent (st : LexSt) : Except LexErr LexSt :=
  let counter := (st.inp.takeWhile (fun c => c = ' ')).length
  let rest := st.inp.dropWhile (fun c => c = ' ')
  match rest.head? with
  | some '\n' => .ok { st with inp := rest }
  | _ =>
    if counter % 2 ≠ 0 then .error .assertFail
    else
      let newInd := counter / 2
      let tk := if newInd > st.indent then Tok.indent else Tok.dedent
      let k := if newInd ≥ st.indent then newInd - st.indent else st.indent - newInd
      .ok { inp := rest, toks := st.toks ++ List.replicate k tk,
            indent := newInd, newline := false }

/-! `LoadToken` produces the next token.  The returned state
contains any Indent/Dedent tokens pushed directly to the buffer by
`CalculateIndent`; the returned token itself has not been appended
yet (the construction loop appends it).  `fuel` bounds the
blank-line coalescing recursion (each recursive call has consumed
at least the newline character). -/

/-- The part of `Lexer::LoadToken` after the `CalculateIndent`
call: skip spaces, skip a comment, then dispatch on the next
character.  A result of `.inr st'` is the blank-line coalescing
case, in which the source recurses into the full `LoadToken`
(so that `CalculateIndent` runs again at the new line start);
`loadToken` below performs that recursion. -/
def loadTokenCore (st : LexSt) : Except LexErr (Sum (Tok × LexSt) LexSt) :=
  let inp1 := st.inp.dropWhile (fun c => c = ' ')
  let inp2 := if inp1.head? = some '#' then inp1.dropWhile (fun c => c ≠ '\n') else inp1
  match inp2.head? with
  | some '\n' =>
    let st' : LexSt := { st with inp := inp2.tail, newline := true }
    if st'.toks = [] ∨ st'.toks.getLast? = some Tok.newline then
      .ok (.inr st')
    else .ok (.inl (Tok.newline, st'))
  | none =>
    let st' : LexSt := { st with inp := inp2 }
    if st'.toks = [] then .ok (.inl (.eof, st'))
    else if st'.toks.getLast? = some Tok.newline ∨ st'.toks.getLast? = some Tok.dedent then
      .ok (.inl (.eof, st'))
    else .ok (.inl (.newline, st'))
  | some c =>
    if IsStringOpening c then
      match loadStringBody c inp2.tail "" with
      | .ok (s, rest) => .ok (.inl (.str s, { st with inp := rest }))
      | .error e => .error e
    else if IsDigit c then
      let ds := inp2.takeWhile IsDigit
      let n := digitsToNat ds
      if n > intMax then .error .stoiOutOfRange
      else .ok (.inl (.number n, { st with inp := inp2.dropWhile IsDigit }))
    else if IsIdOpening c then
      let run := inp2.takeWhile IsIdCharacter
      let s := String.mk run
      let t := match keywordTok s with
        | some kw => kw
        | none => Tok.id s
      .ok (.inl (t, { st with inp := inp2.dropWhile IsIdCharacter }))
    else
      let p := loadOperatorsToken inp2
      .ok (.inl (p.1, { st with inp := p.2 }))

/-- `Lexer::LoadToken`: if at a line start, process indentation
first, then run the core scan, recursing on a coalesced blank
line. -/
def loadToken : Nat → LexSt → Except LexErr (Tok × LexSt)
  | 0, _ => .error .outOfFuel
  | fuel + 1, st0 =>
    match (if st0.newline then calcIndent st0 else .ok st0) with
    | .error e => .error e
    | .ok st =>
      match loadTokenCore st with
      | .error e => .error e
      | .ok (.inl r) => .ok r
      | .ok (.inr st') => loadToken fuel st'

/-- The construction loop of `Lexer::Lexer`: push tokens until the
buffer ends in `Eof`. -/
def lexLoop : Nat → LexSt → Except LexErr (List Tok)
  | 0, _ => .error .outOfFuel
  | fuel + 1, st =>
    match loadToken (fuel + 1) st with
    | .error e => .error e
    | .ok (t, st') =>
      if t = Tok.eof then .ok (st'.toks ++ [Tok.eof])
      else lexLoop fuel { st' with toks := st'.toks ++ [t] }

/-- Run the lexer on a whole source string, starting from the
initial state (indent 0, at line start), with fuel ample for any
input of that length. -/
def lexTokens (s : String) : Except LexErr (List Tok) :=
  lexLoop (s.data.length * 2 + 4) { inp := s.data, toks := [], indent := 0, newline := true }

/-! ## Runtime and AST (runtime.cpp, statement.cpp)

Statements carry their sub-statements; `ClassDefinition` and
`NewInstance` carry the `runtime::Class` value they hold in the
source, so classes, methods and statements are one mutual
inductive family.  A `runtime::Class` knows its name, its ordered
method list and an optional parent (the weak pointer of the
source); `Method` is name, formal parameter names and a body
statement. -/

/-- The comparator passed to `ast::Comparison` — in the source a
`std::function` that the parser instantiates with one of the six
runtime comparison functions. -/
inductive CmpOp where
  | eqC | neC | ltC | gtC | leC | geC
deriving DecidableEq

mutual
/-- AST statement nodes of statement.h/statement.cpp, one
constructor per `ast::Statement` subclass that `Execute`s.
`fieldAssignment`'s object is the `VariableValue` member of the
source node, kept as its dotted id chain. -/
inductive Stmt where
  | assignment (var : String) (rv : Stmt)
  | variableValue (dottedIds : List String)
  | print (args : List Stmt)
  | methodCall (object : Stmt) (method : String) (args : List Stmt)
  | newInstance (cls : MClass) (args : List Stmt)
  | stringify (argument : Stmt)
  | add (lhs rhs : Stmt)
  | sub (lhs rhs : Stmt)
  | mult (lhs rhs : Stmt)
  | div (lhs rhs : Stmt)
  | compound (stmts : List Stmt)
  | returnStmt (statement : Stmt)
  | classDefinition (cls : MClass)
  | fieldAssignment (object : List String) (fieldName : String) (rv : Stmt)
  | ifElse (condition ifBody : Stmt) (elseBody : Option Stmt)
  | orStmt (lhs rhs : Stmt)
  | andStmt (lhs rhs : Stmt)
  | notStmt (argument : Stmt)
  | comparison (cmp : CmpOp) (lhs rhs : Stmt)
  | methodBody (body : Stmt)

/-- `runtime::Class`: name, ordered methods, optional parent. -/
inductive MClass where
  | mk (name : String) (methods : List MMethod) (parent : Option MClass)

/-- `runtime::Method`: name, formal parameter names, body. -/
inductive MMethod where
  | mk (name : String) (formalParams : List String) (body : Stmt)
end

def MClass.name : MClass → String
  | .mk n _ _ => n

def MClass.methods : MClass → List MMethod
  | .mk _ ms _ => ms

def MClass.parent : MClass → Option MClass
  | .mk _ _ p => p

def MMethod.name : MMethod → String
  | .mk n _ _ => n

def MMethod.formalParams : MMethod → List String
  | .mk _ ps _ => ps

def MMethod.body : MMethod → Stmt
  | .mk _ _ b => b

/-- `Class::GetMethod`: `find_if` over the own method list (first
name match wins), then delegate to the parent. -/
def MClass.getMethod : MClass → String → Option MMethod
  | .mk _ methods parent, n =>
    match methods.find? (fun m => m.name = n) with
    | some m => some m
    | none =>
      match parent with
      | some p => p.getMethod n
      | none => none

/-- `ClassInstance::HasMethod`, as a function of the instance's
class: the looked-up method must have exactly `argc` formal
parameters. -/
def hasMethodC (c : MClass) (n : String) (argc : Nat) : Bool :=
  match c.getMethod n with
  | some m => m.formalParams.length = argc
  | none => false

/-- Length of the parent chain, for inductions over class
hierarchies. -/
def MClass.chainLen : MClass → Nat
  | .mk _ _ none => 0
  | .mk _ _ (some p) => p.chainLen + 1

/-- All methods visible from a class, own methods first, then the
parent chain in order — this is the spec's description of the
lookup order (`walking self then parent chain`). -/
def MClass.chainMethods : MClass → List MMethod
  | .mk _ ms none => ms
  | .mk _ ms (some p) => ms ++ p.chainMethods

/-- A runtime value as seen through an `ObjectHolder`: `none` is
the empty handle; the other constructors are the `runtime::Object`
subclasses.  Class instances live in the heap and are referenced
by address, which is what makes `shared_ptr` aliasing of a mutable
instance observable.  Bool/Number/String objects are immutable, so
their identity is irrelevant and they are carried immediately. -/
inductive Value where
  | none
  | vbool (b : Bool)
  | vnum (n : Int)
  | vstr (s : String)
  | vcls (c : MClass)
  | vinst (addr : Nat)

/-- `ObjectHolder::TryAs<runtime::Bool>` on the held value. -/
def Value.tryBool : Value → Option Bool
  | .vbool b => some b
  | _ => Option.none

/-- `ObjectHolder::TryAs<runtime::ClassInstance>` on the held
value. -/
def Value.tryInst : Value → Option Nat
  | .vinst a => some a
  | _ => Option.none

/-- `runtime::Closure`: a name→value map
(`std::unordered_map<std::string, ObjectHolder>`), as an
association list with insert-or-assign update. -/
def Closure := List (String × Value)

/-- Map lookup (`count` / `at`). -/
def Closure.lookup : Closure → String → Option Value
  | [], _ => Option.none
  | (k, v) :: rest, n => if k = n then some v else Closure.lookup rest n

/-- Map insert-or-assign (`operator[]` followed by assignment). -/
def Closure.setK : Closure → String → Value → Closure
  | [], n, v => [(n, v)]
  | (k, w) :: rest, n, v =>
    if k = n then (k, v) :: rest else (k, w) :: Closure.setK rest n v

/-- A live `runtime::ClassInstance`: its class and its field map. -/
structure InstData where
  cls : MClass
  fields : Closure

/-- Mutable execution state: the instance heap (addresses are list
indices), the closure heap (closures are mutated through
references, so they live in state too), and the context's output
stream contents. -/
structure St where
  insts : List InstData
  clos : List Closure
  output : String

/-- Runtime failure modes: `rtError` is a thrown
`std::runtime_error` with the source's message; `retEx` is the
`ast::ReturnException` carrying the returned value; `assertFail` a
failed `assert`; `nullDeref` a null-pointer dereference (e.g.
`TryAs` returning `nullptr` followed by `->`); `outOfFuel` the
modelling artifact. -/
inductive RErr where
  | rtError (msg : String)
  | retEx (v : Value)
  | assertFail
  | nullDeref
  | outOfFuel

/-- Result of a stateful runtime step: errors carry the state at
the throw point. -/
abbrev Res (α : Type) := Except (RErr × St) (α × St)

def St.getInst (st : St) (a : Nat) : Option InstData :=
  st.insts.get? a

def St.setInstField (st : St) (a : Nat) (f : String) (v : Value) : St :=
  match st.insts.get? a with
  | some d => { st with insts := st.insts.set a { d with fields := d.fields.setK f v } }
  | Option.none => st

def St.getClos (st : St) (i : Nat) : Option Closure :=
  st.clos.get? i

def St.setClosVar (st : St) (i : Nat) (n : String) (v : Value) : St :=
  match st.clos.get? i with
  | some c => { st with clos := st.clos.set i (c.setK n v) }
  | Option.none => st

/-- `runtime::IsTrue` (the free function of runtime.cpp): Bool →
its value, Number → nonzero, String → nonempty, anything else
(including the empty handle) → false. -/
def runtimeIsTrue : Value → Bool
  | .vbool b => b
  | .vnum n => n != 0
  | .vstr s => !(s = "")
  | _ => false

/-- Template helper `Equal<Bool>` of runtime.cpp. -/
def eqBoolV : Value → Value → Option Bool
  | .vbool a, .vbool b => some (a = b)
  | _, _ => Option.none

/-- Template helper `Equal<Number>`. -/
def eqNumV : Value → Value → Option Bool
  | .vnum a, .vnum b => some (a = b)
  | _, _ => Option.none

/-- Template helper `Equal<String>`. -/
def eqStrV : Value → Value → Option Bool
  | .vstr a, .vstr b => some (a = b)
  | _, _ => Option.none

/-- Template helper `Less<Bool>` (`bool` compares via integral
promotion, so `false < true` only). -/
def ltBoolV : Value → Value → Option Bool
  | .vbool a, .vbool b => some (!a && b)
  | _, _ => Option.none

/-- Template helper `Less<Number>`. -/
def ltNumV : Value → Value → Option Bool
  | .vnum a, .vnum b => some (decide (a < b))
  | _, _ => Option.none

/-- Template helper `Less<String>` (lexicographic, as
`std::string::operator<`). -/
def ltStrV : Value → Value → Option Bool
  | .vstr a, .vstr b => some (decide (a < b))
  | _, _ => Option.none

/-- Binding loop of `ClassInstance::Call`:
`closure[formal_params[i]] = actual_args[i]` in order. -/
def bindParams (ps : List String) (vs : List Value) : Closure :=
  (List.zip ps vs).foldl (fun c pv => c.setK pv.1 pv.2) []

/-- `VariableValue::Execute`'s walk: resolve the leading ids
through closure/field maps; a missing name throws the
`Identifier ... is undefined` runtime error, a non-instance
intermediate value makes `TryAs<ClassInstance>` return null and
the following `->Fields()` crash. -/
def lookupChain (st : St) : Closure → List String → Res Value
  | _, [] => .error (.nullDeref, st)
  | m, [x] =>
    match m.lookup x with
    | some v => .ok (v, st)
    | Option.none =>
      .error (.rtError ("Identifier \x27" ++ x ++ "\x27 is undefined"), st)
  | m, x :: rest =>
    match m.lookup x with
    | Option.none =>
      .error (.rtError ("Identifier \x27" ++ x ++ "\x27 is undefined"), st)
    | some v =>
      match v with
      | .vinst a =>
        match st.getInst a with
        | some d => lookupChain st d.fields rest
        | Option.none => .error (.nullDeref, st)
      | _ => .error (.nullDeref, st)

set_option maxHeartbeats 2000000

mutual

/-- `Execute` of every `ast::Statement` subclass, dispatching on
the node.  `cl` is the index of the closure passed by reference in
the source.  Fuel decreases on every nested `Execute`,
`Call`, `Equal`/`Less` and `Print` dispatch. -/
def exec : Nat → Stmt → Nat → St → Res Value
  | 0, _, _, st => .error (.outOfFuel, st)
  | fuel + 1, s, cl, st =>
    match s with
    | .assignment var rv =>
      match exec fuel rv cl st with
      | .error e => .error e
      | .ok (v, st1) => .ok (v, st1.setClosVar cl var v)
    | .variableValue ids =>
      match st.getClos cl with
      | Option.none => .error (.nullDeref, st)
      | some m => lookupChain st m ids
    | .print args =>
      match execPrintParts fuel args cl st with
      | .error e => .error e
      | .ok (parts, st1) =>
        let text := String.intercalate " " parts ++ "\n"
        .ok (.vstr text, { st1 with output := st1.output ++ text })
    | .methodCall obj m args =>
      match exec fuel obj cl st with
      | .error e => .error e
      | .ok (v, st1) =>
        match v with
        | .vinst a =>
          match st1.getInst a with
          | Option.none => .error (.nullDeref, st1)
          | some d =>
            if hasMethodC d.cls m args.length then
              match execArgs fuel args cl st1 with
              | .error e => .error e
              | .ok (vs, st2) => callM fuel a m vs st2
            else .ok (Value.none, st1)
        | _ => .ok (Value.none, st1)
    | .newInstance c args =>
      let a := st.insts.length
      let st1 : St := { st with insts := st.insts ++ [⟨c, []⟩] }
      if hasMethodC c "__init__" args.length then
        match execArgs fuel args cl st1 with
        | .error e => .error e
        | .ok (vs, st2) =>
          match callM fuel a "__init__" vs st2 with
          | .error e => .error e
          | .ok (_, st3) => .ok (.vinst a, st3)
      else .ok (.vinst a, st1)
    | .stringify arg =>
      match exec fuel arg cl st with
      | .error e => .error e
      | .ok (v, st1) =>
        match v with
        | Value.none => .ok (.vstr "None", st1)
        | _ =>
          match printObj fuel v st1 with
          | .error e => .error e
          | .ok (text, st2) => .ok (.vstr text, st2)
    | .add lhs rhs =>
      match exec fuel lhs cl st with
      | .error e => .error e
      | .ok (lv, st1) =>
        match exec fuel rhs cl st1 with
        | .error e => .error e
        | .ok (rv, st2) =>
          match lv, rv with
          | Value.none, _ => .error (.rtError "Cannot add/concatenate objects", st2)
          | _, Value.none => .error (.rtError "Cannot add/concatenate objects", st2)
          | .vnum a, .vnum b => .ok (.vnum (a + b), st2)
          | .vstr a, .vstr b => .ok (.vstr (a ++ b), st2)
          | .vinst a, _ =>
            match st2.getInst a with
            | Option.none => .error (.nullDeref, st2)
            | some d =>
              if hasMethodC d.cls "__add__" 1 then callM fuel a "__add__" [rv] st2
              else .error (.rtError "Cannot add/concatenate objects", st2)
          | _, _ => .error (.rtError "Cannot add/concatenate objects", st2)
    | .sub lhs rhs =>
      match exec fuel lhs cl st with
      | .error e => .error e
      | .ok (lv, st1) =>
        match exec fuel rhs cl st1 with
        | .error e => .error e
        | .ok (rv, st2) =>
          match lv, rv with
          | .vnum a, .vnum b => .ok (.vnum (a - b), st2)
          | _, _ => .error (.rtError "Cannot sub objects", st2)
    | .mult lhs rhs =>
      match exec fuel lhs cl st with
      | .error e => .error e
      | .ok (lv, st1) =>
        match exec fuel rhs cl st1 with
        | .error e => .error e
        | .ok (rv, st2) =>
          match lv, rv with
          | .vnum a, .vnum b => .ok (.vnum (a * b), st2)
          | _, _ => .error (.rtError "Cannot mult objects", st2)
    | .div lhs rhs =>
      match exec fuel lhs cl st with
      | .error e => .error e
      | .ok (lv, st1) =>
        match exec fuel rhs cl st1 with
        | .error e => .error e
        | .ok (rv, st2) =>
          match lv, rv with
          | .vnum a, .vnum b =>
            if b = 0 then .error (.rtError "Cannot div by zero", st2)
            else .ok (.vnum (Int.tdiv a b), st2)
          | _, _ => .error (.rtError "Cannot div objects", st2)
    | .compound stmts =>
      match execSeq fuel stmts cl st with
      | .error e => .error e
      | .ok (_, st1) => .ok (Value.none, st1)
    | .returnStmt inner =>
      match exec fuel inner cl st with
      | .error e => .error e
      | .ok (v, st1) => .error (.retEx v, st1)
    | .classDefinition c =>
      .ok (.vcls c, st.setClosVar cl c.name (.vcls c))
    | .fieldAssignment ids fieldName rv =>
      match exec fuel (.variableValue ids) cl st with
      | .error e => .error e
      | .ok (ov, st1) =>
        match exec fuel rv cl st1 with
        | .error e => .error e
        | .ok (rvv, st2) =>
          match ov with
          | .vinst a =>
            match st2.getInst a with
            | Option.none => .error (.nullDeref, st2)
            | some _ => .ok (rvv, st2.setInstField a fieldName rvv)
          | _ => .error (.nullDeref, st2)
    | .ifElse c tB eB =>
      match exec fuel c cl st with
      | .error e => .error e
      | .ok (v, st1) =>
        match v with
        | Value.none => .error (.assertFail, st1)
        | .vbool true => exec fuel tB cl st1
        | .vbool false =>
          match eB with
          | some el => exec fuel el cl st1
          | Option.none => .ok (Value.none, st1)
        | _ => .error (.nullDeref, st1)
    | .orStmt lhs rhs =>
      match exec fuel lhs cl st with
      | .error e => .error e
      | .ok (v1, st1) =>
        match equalV fuel v1 (.vbool true) st1 with
        | .error e => .error e
        | .ok (true, st2) => .ok (.vbool true, st2)
        | .ok (false, st2) =>
          match exec fuel rhs cl st2 with
          | .error e => .error e
          | .ok (v2, st3) =>
            match equalV fuel v2 (.vbool true) st3 with
            | .error e => .error e
            | .ok (b, st4) => .ok (.vbool b, st4)
    | .andStmt lhs rhs =>
      match exec fuel lhs cl st with
      | .error e => .error e
      | .ok (v1, st1) =>
        match equalV fuel v1 (.vbool true) st1 with
        | .error e => .error e
        | .ok (false, st2) => .ok (.vbool false, st2)
        | .ok (true, st2) =>
          match exec fuel rhs cl st2 with
          | .error e => .error e
          | .ok (v2, st3) =>
            match equalV fuel v2 (.vbool true) st3 with
            | .error e => .error e
            | .ok (b, st4) => .ok (.vbool b, st4)
    | .notStmt arg =>
      match exec fuel arg cl st with
      | .error e => .error e
      | .ok (v, st1) =>
        match v.tryBool with
        | some b => .ok (.vbool !b, st1)
        | Option.none => .error (.nullDeref, st1)
    | .comparison op lhs rhs =>
      match exec fuel lhs cl st with
      | .error e => .error e
      | .ok (lv, st1) =>
        match exec fuel rhs cl st1 with
        | .error e => .error e
        | .ok (rv, st2) =>
          match cmpApply fuel op lv rv st2 with
          | .error e => .error e
          | .ok (b, st3) => .ok (.vbool b, st3)
    | .methodBody b =>
      match exec fuel b cl st with
      | .ok (_, st1) => .ok (Value.none, st1)
      | .error (.retEx v, st1) => .ok (v, st1)
      | .error e => .error e
termination_by structural fuel _ _ _ => fuel

/-- `GetActualArgs` of statement.cpp: evaluate arguments in order,
collecting the values. -/
def execArgs : Nat → List Stmt → Nat → St → Res (List Value)
  | 0, _, _, st => .error (.outOfFuel, st)
  | _ + 1, [], _, st => .ok ([], st)
  | fuel + 1, a :: rest, cl, st =>
    match exec fuel a cl st with
    | .error e => .error e
    | .ok (v, st1) =>
      match execArgs fuel rest cl st1 with
      | .error e => .error e
      | .ok (vs, st2) => .ok (v :: vs, st2)
termination_by structural fuel _ _ _ => fuel

/-- The loop of `Compound::Execute`: run each statement, discard
results. -/
def execSeq : Nat → List Stmt → Nat → St → Res Unit
  | 0, _, _, st => .error (.outOfFuel, st)
  | _ + 1, [], _, st => .ok ((), st)
  | fuel + 1, a :: rest, cl, st =>
    match exec fuel a cl st with
    | .error e => .error e
    | .ok (_, st1) => execSeq fuel rest cl st1
termination_by structural fuel _ _ _ => fuel

/-- The loop of `Print::Execute`: evaluate each argument, print a
non-empty holder through the object's `Print` and an empty one as
`None`, collecting the printed fragments. -/
def execPrintParts : Nat → List Stmt → Nat → St → Res (List String)
  | 0, _, _, st => .error (.outOfFuel, st)
  | _ + 1, [], _, st => .ok ([], st)
  | fuel + 1, a :: rest, cl, st =>
    match exec fuel a cl st with
    | .error e => .error e
    | .ok (v, st1) =>
      match (match v with
             | Value.none => .ok ("None", st1)
             | _ => printObj fuel v st1 : Res String) with
      | .error e => .error e
      | .ok (text, st2) =>
        match execPrintParts fuel rest cl st2 with
        | .error e => .error e
        | .ok (parts, st3) => .ok (text :: parts, st3)
termination_by structural fuel _ _ _ => fuel

/-- `ClassInstance::Call`: look the method up through the class
chain; a missing method or a formal/actual arity mismatch throws
`Not implemented`; otherwise a fresh closure binds the formals to
the actuals plus `self` (a borrowed handle to the receiver), and
the method body executes in it. -/
def callM : Nat → Nat → String → List Value → St → Res Value
  | 0, _, _, _, st => .error (.outOfFuel, st)
  | fuel + 1, a, mname, actualArgs, st =>
    match st.getInst a with
    | Option.none => .error (.nullDeref, st)
    | some d =>
      match d.cls.getMethod mname with
      | Option.none => .error (.rtError "Not implemented", st)
      | some m =>
        if m.formalParams.length = actualArgs.length then
          let c1 := (bindParams m.formalParams actualArgs).setK "self" (.vinst a)
          let cid := st.clos.length
          exec fuel m.body cid { st with clos := st.clos ++ [c1] }
        else .error (.rtError "Not implemented", st)
termination_by structural fuel _ _ _ _ => fuel

/-- `runtime::Equal`: both handles empty ⇒ true; then the three
value-equality templates; then, if the left value is a class
instance, dispatch `__eq__` unconditionally (`Call` throws when it
is missing or has the wrong arity) and take the Bool value of the
result (`TryAs<Bool>` null-crashes on a non-Bool result);
otherwise throw the equality type-mismatch error. -/
def equalV : Nat → Value → Value → St → Res Bool
  | 0, _, _, st => .error (.outOfFuel, st)
  | fuel + 1, l, r, st =>
    match l, r with
    | Value.none, Value.none => .ok (true, st)
    | l, r =>
      match eqBoolV l r with
      | some b => .ok (b, st)
      | Option.none =>
        match eqNumV l r with
        | some b => .ok (b, st)
        | Option.none =>
          match eqStrV l r with
          | some b => .ok (b, st)
          | Option.none =>
            match l with
            | .vinst a =>
              match callM fuel a "__eq__" [r] st with
              | .error e => .error e
              | .ok (v, st1) =>
                match v.tryBool with
                | some b => .ok (b, st1)
                | Option.none => .error (.nullDeref, st1)
            | _ => .error (.rtError "Cannot compare objects for equality", st)
termination_by structural fuel _ _ _ => fuel

/-- `runtime::Less`: the three value-ordering templates, then
`__lt__` dispatch for a class-instance left value, otherwise the
ordering type-mismatch error.  There is no both-empty case. -/
def lessV : Nat → Value → Value → St → Res Bool
  | 0, _, _, st => .error (.outOfFuel, st)
  | fuel + 1, l, r, st =>
    match ltBoolV l r with
    | some b => .ok (b, st)
    | Option.none =>
      match ltNumV l r with
      | some b => .ok (b, st)
      | Option.none =>
        match ltStrV l r with
        | some b => .ok (b, st)
        | Option.none =>
          match l with
          | .vinst a =>
            match callM fuel a "__lt__" [r] st with
            | .error e => .error e
            | .ok (v, st1) =>
              match v.tryBool with
              | some b => .ok (b, st1)
              | Option.none => .error (.nullDeref, st1)
          | _ => .error (.rtError "Cannot compare objects for less", st)
termination_by structural fuel _ _ _ => fuel

/-- Application of the comparator held by an `ast::Comparison`
node: the parser passes one of `runtime::Equal`, `NotEqual`,
`Less`, `Greater`, `LessOrEqual`, `GreaterOrEqual`; their bodies
(including the `&&`/`||` short-circuit of the derived ones) are
inlined here. -/
def cmpApply : Nat → CmpOp → Value → Value → St → Res Bool
  | 0, _, _, _, st => .error (.outOfFuel, st)
  | fuel + 1, op, l, r, st =>
    match op with
    | .eqC => equalV fuel l r st
    | .neC =>
      match equalV fuel l r st with
      | .error e => .error e
      | .ok (b, st1) => .ok (!b, st1)
    | .ltC => lessV fuel l r st
    | .gtC =>
      match lessV fuel l r st with
      | .error e => .error e
      | .ok (true, st1) => .ok (false, st1)
      | .ok (false, st1) =>
        match equalV fuel l r st1 with
        | .error e => .error e
        | .ok (b, st2) => .ok (!b, st2)
    | .leC =>
      match lessV fuel l r st with
      | .error e => .error e
      | .ok (true, st1) => .ok (true, st1)
      | .ok (false, st1) => equalV fuel l r st1
    | .geC =>
      match lessV fuel l r st with
      | .error e => .error e
      | .ok (b, st1) => .ok (!b, st1)
termination_by structural fuel _ _ _ _ => fuel

/-- `Object::Print` of each value kind, producing the printed
text: Bool prints `True`/`False`, Number its decimal value, String
its raw contents, Class `Class <name>`; a ClassInstance with a
zero-argument `__str__` dispatches it and prints the result
(`operator->` asserts on an empty result), otherwise it prints an
address-like identifier (`os << this`, modelled from the heap
address).  Printing an empty handle would dereference null. -/
def printObj : Nat → Value → St → Res String
  | 0, _, st => .error (.outOfFuel, st)
  | fuel + 1, v, st =>
    match v with
    | .vbool b => .ok (if b then "True" else "False", st)
    | .vnum n => .ok (toString n, st)
    | .vstr s => .ok (s, st)
    | .vcls c => .ok ("Class " ++ c.name, st)
    | .vinst a =>
      match st.getInst a with
      | Option.none => .error (.nullDeref, st)
      | some d =>
        if hasMethodC d.cls "__str__" 0 then
          match callM fuel a "__str__" [] st with
          | .error e => .error e
          | .ok (r, st1) =>
            match r with
            | Value.none => .error (.assertFail, st1)
            | _ => printObj fuel r st1
        else .ok ("0x" ++ toString a, st)
    | Value.none => .error (.assertFail, st)
termination_by structural fuel _ _ => fuel

end

/-- The static `ast::IsTrue` helper used by `Or::Execute` and
`And::Execute`: equality against an owned `Bool(true)` through
`runtime::Equal` — not `runtime::IsTrue` truthiness. -/
def astIsTrue (fuel : Nat) (v : Value) (st : St) : Res Bool :=
  equalV fuel v (.vbool true) st

/-- `runtime::NotEqual`. -/
def notEqualV (fuel : Nat) (l r : Value) (st : St) : Res Bool :=
  match equalV fuel l r st with
  | .error e => .error e
  | .ok (b, st1) => .ok (!b, st1)

/-- `runtime::Greater`: `!Less(...) && !Equal(...)`, with the
built-in `&&` short-circuit (when `Less` is true, `Equal` is not
evaluated). -/
def greaterV (fuel : Nat) (l r : Value) (st : St) : Res Bool :=
  match lessV fuel l r st with
  | .error e => .error e
  | .ok (true, st1) => .ok (false, st1)
  | .ok (false, st1) =>
    match equalV fuel l r st1 with
    | .error e => .error e
    | .ok (b, st2) => .ok (!b, st2)

/-- `runtime::LessOrEqual`: `Less(...) || Equal(...)`, with the
built-in `||` short-circuit. -/
def lessOrEqualV (fuel : Nat) (l r : Value) (st : St) : Res Bool :=
  match lessV fuel l r st with
  | .error e => .error e
  | .ok (true, st1) => .ok (true, st1)
  | .ok (false, st1) => equalV fuel l r st1

/-- `runtime::GreaterOrEqual`: `!Less(...)`. -/
def greaterOrEqualV (fuel : Nat) (l r : Value) (st : St) : Res Bool :=
  match lessV fuel l r st with
  | .error e => .error e
  | .ok (b, st1) => .ok (!b, st1)

/-! ## Lexer invariants (helpers for C2, C3, C6) -/

/-- No two consecutive `Newline` tokens. -/
def noNN (ts : List Tok) : Prop :=
  List.Chain' (fun a b => ¬(a = Tok.newline ∧ b = Tok.newline)) ts

/-- The remaining input ends with a newline character. -/
def endsNl (l : List Char) : Prop := l.getLast? = some '\n'

/-- Input-side invariant: the remaining input still ends with a
newline, or it is exhausted with either the line-start flag set or
the indent already unwound to 0. -/
def nlInv (st : LexSt) : Prop :=
  endsNl st.inp ∨ (st.inp = [] ∧ (st.newline = true ∨ st.indent = 0))

/-- Buffer-side invariant: Indent surplus equals the current
indent, no consecutive newlines, no Eof yet. -/
def Inv0 (st : LexSt) : Prop :=
  st.toks.count Tok.indent = st.toks.count Tok.dedent + st.indent ∧
  noNN st.toks ∧
  st.toks.count Tok.eof = 0

theorem endsNl_cons {c : Char} {l : List Char}
    (h : endsNl (c :: l)) (hc : c ≠ '\n') : endsNl l := by
  cases l with
  | nil => simp [endsNl] at h; exact absurd h hc
  | cons x xs => simpa [endsNl] using h

theorem endsNl_dropWhile (p : Char → Bool) {l : List Char}
    (hp : p '\n' = false) (h : endsNl l) : endsNl (l.dropWhile p) := by
  induction l with
  | nil => simp [endsNl] at h
  | cons c rest ih =>
    by_cases hc : p c = true
    · have hcn : c ≠ '\n' := fun he => by rw [he] at hc; rw [hp] at hc; exact Bool.noConfusion hc
      rw [List.dropWhile_cons_of_pos hc]
      exact ih (endsNl_cons h hcn)
    · rwa [List.dropWhile_cons_of_neg hc]

theorem endsNl_ne_nil {l : List Char} (h : endsNl l) : l ≠ [] := by
  intro he; rw [he] at h; simp [endsNl] at h



theorem calcIndent_ok_inp {st st1 : LexSt} (h : calcIndent st = .ok st1) :
    st1.inp = st.inp.dropWhile (fun c => c = ' ') := by
  simp only [calcIndent] at h
  split at h
  · exact congrArg LexSt.inp (Except.ok.inj h).symm ▸ rfl
  · split at h
    · exact absurd h (by simp)
    · cases h; rfl

theorem calcIndent_ok_toks {st st1 : LexSt} (h : calcIndent st = .ok st1) :
    ∃ k tk, (tk = Tok.indent ∨ tk = Tok.dedent) ∧
      st1.toks = st.toks ++ List.replicate k tk := by
  simp only [calcIndent] at h
  split at h
  · refine ⟨0, Tok.indent, Or.inl rfl, ?_⟩
    cases h; simp
  · split at h
    · exact absurd h (by simp)
    · cases h
      exact ⟨_, _, by split <;> simp, rfl⟩

theorem count_balance (toks : List Tok) (ind newInd : Nat)
    (hc : toks.count Tok.indent = toks.count Tok.dedent + ind) :
    (toks ++ List.replicate (if newInd ≥ ind then newInd - ind else ind - newInd)
        (if newInd > ind then Tok.indent else Tok.dedent)).count Tok.indent
      = (toks ++ List.replicate (if newInd ≥ ind then newInd - ind else ind - newInd)
          (if newInd > ind then Tok.indent else Tok.dedent)).count Tok.dedent + newInd := by
  by_cases h1 : newInd > ind <;> by_cases h2 : newInd ≥ ind <;>
    simp [h1, h2, List.count_append, List.count_replicate] <;> omega

theorem calcIndent_ok_count {st st1 : LexSt} (h : calcIndent st = .ok st1)
    (hc : st.toks.count Tok.indent = st.toks.count Tok.dedent + st.indent) :
    st1.toks.count Tok.indent = st1.toks.count Tok.dedent + st1.indent := by
  simp only [calcIndent] at h
  split at h
  · cases h; exact hc
  · split at h
    · exact absurd h (by simp)
    · cases h
      exact count_balance st.toks st.indent _ hc

theorem calcIndent_ok_eofcount {st st1 : LexSt} (h : calcIndent st = .ok st1)
    (hc : st.toks.count Tok.eof = 0) : st1.toks.count Tok.eof = 0 := by
  obtain ⟨k, tk, htk, he⟩ := calcIndent_ok_toks h
  rw [he]
  simp only [List.count_append, List.count_replicate]
  rcases htk with h1 | h1 <;> subst h1 <;> simp [hc]

theorem calcIndent_ok_noNN {st st1 : LexSt} (h : calcIndent st = .ok st1)
    (hc : noNN st.toks) : noNN st1.toks := by
  obtain ⟨k, tk, htk, he⟩ := calcIndent_ok_toks h
  rw [he]
  unfold noNN at hc ⊢
  rw [List.chain'_append]
  refine ⟨hc, ?_, ?_⟩
  · apply List.chain'_replicate_of_rel
    rcases htk with h1 | h1 <;> subst h1 <;> simp
  · intro x hx y hy
    cases k with
    | zero => simp at hy
    | succ k2 =>
      simp [List.replicate_succ] at hy
      subst hy
      rcases htk with h1 | h1 <;> subst h1 <;> simp

theorem calcIndent_empty {st st1 : LexSt} (h : calcIndent st = .ok st1)
    (hin : st.inp = []) : st1.inp = [] ∧ st1.indent = 0 ∧ st1.newline = false := by
  unfold calcIndent at h
  rw [hin] at h
  simp only [List.takeWhile_nil, List.dropWhile_nil, List.length_nil, List.head?_nil] at h
  simp at h
  cases h; exact ⟨rfl, rfl, rfl⟩

theorem calcIndent_newline_cases {st st1 : LexSt} (h : calcIndent st = .ok st1) :
    (st1 = { st with inp := st.inp.dropWhile (fun c => c = ' ') } ∧
      st1.inp.head? = some '\n') ∨ st1.newline = false := by
  simp only [calcIndent] at h
  split at h
  · rename_i heq
    cases h
    exact Or.inl ⟨rfl, heq⟩
  · split at h
    · exact absurd h (by simp)
    · cases h; exact Or.inr rfl

theorem calcIndent_nlInv {st st1 : LexSt} (h : calcIndent st = .ok st1)
    (hn : nlInv st) : nlInv st1 := by
  rcases hn with hn | ⟨hn1, hn2⟩
  · left
    rw [calcIndent_ok_inp h]
    exact endsNl_dropWhile _ (by decide) hn
  · obtain ⟨h1, h2, h3⟩ := calcIndent_empty h hn1
    exact Or.inr ⟨h1, Or.inr h2⟩



theorem loadStringBody_endsNl {q : Char} (hq : q ≠ '\n') :
    ∀ (n : Nat) (l : List Char), l.length ≤ n → ∀ (acc s : String) (l' : List Char),
      loadStringBody q l acc = .ok (s, l') → endsNl l → endsNl l' := by
  intro n
  induction n with
  | zero =>
    intro l hl acc s l' h he
    match l with
    | [] => simp [loadStringBody] at h
  | succ n ih =>
    intro l hl acc s l' h he
    match l with
    | [] => simp [loadStringBody] at h
    | [c] =>
      rw [loadStringBody.eq_2] at h
      split_ifs at h with h1 h2 h3
      · exact absurd (show c = '\n' by simpa [endsNl] using he) (by rw [h1]; exact hq)
      · rw [loadStringBody.eq_1] at h
        exact absurd h (by simp)
    | c :: e :: rest2 =>
      rw [loadStringBody.eq_3] at h
      have hll : rest2.length + 1 ≤ n := by
        simp only [List.length_cons] at hl; omega
      split_ifs at h with h1 h2 e1 e2 e3 e4 h3
      · cases h
        exact endsNl_cons he (by rw [h1]; exact hq)
      · refine ih rest2 (by omega) _ _ _ h ?_
        exact endsNl_cons (endsNl_cons he (by rw [h2]; decide)) (by rw [e1]; decide)
      · refine ih rest2 (by omega) _ _ _ h ?_
        exact endsNl_cons (endsNl_cons he (by rw [h2]; decide)) (by rw [e2]; decide)
      · refine ih rest2 (by omega) _ _ _ h ?_
        exact endsNl_cons (endsNl_cons he (by rw [h2]; decide)) (by rw [e3, quoteChar]; decide)
      · refine ih rest2 (by omega) _ _ _ h ?_
        exact endsNl_cons (endsNl_cons he (by rw [h2]; decide)) (by rw [e4]; decide)
      · refine ih (e :: rest2) (by simpa using hll) _ _ _ h ?_
        push_neg at h3
        exact endsNl_cons he h3.1




theorem loadOperatorsToken_endsNl {l : List Char} {t : Tok} {l2 : List Char}
    (h : loadOperatorsToken l = (t, l2)) (hh : l.head? ≠ some '\n')
    (he : endsNl l) : endsNl l2 := by
  match l with
  | [] => simp [endsNl] at he
  | c1 :: rest =>
    have hc1 : c1 ≠ '\n' := by simpa using hh
    match rest with
    | [] =>
      rw [loadOperatorsToken.eq_3 c1 [] (by intro r hr; exact List.noConfusion hr)] at h
      rw [ite_self] at h
      cases h
      exact absurd (show c1 = '\n' by simpa [endsNl] using he) hc1
    | c2 :: rest2 =>
      by_cases hc2 : c2 = '='
      · subst hc2
        rw [loadOperatorsToken.eq_2] at h
        have heq : ('=' : Char) ≠ '\n' := by decide
        split_ifs at h <;>
          (rw [Prod.mk.injEq] at h; obtain ⟨ht, hl2⟩ := h; subst hl2) <;>
          exact endsNl_cons (endsNl_cons he hc1) heq
      · rw [loadOperatorsToken.eq_3 c1 (c2 :: rest2)
          (by intro r hr; injection hr with ha hb; exact hc2 ha)] at h
        rw [ite_self] at h
        cases h
        exact endsNl_cons he hc1

theorem loadOperatorsToken_shape {l : List Char} {t : Tok} {l2 : List Char}
    (h : loadOperatorsToken l = (t, l2)) :
    t ≠ Tok.newline ∧ t ≠ Tok.indent ∧ t ≠ Tok.dedent ∧ t ≠ Tok.eof := by
  match l with
  | [] => cases h; decide
  | c1 :: rest =>
    match rest with
    | [] =>
      rw [loadOperatorsToken.eq_3 c1 [] (by intro r hr; exact List.noConfusion hr)] at h
      rw [ite_self] at h
      cases h; simp
    | c2 :: rest2 =>
      by_cases hc2 : c2 = '='
      · subst hc2
        rw [loadOperatorsToken.eq_2] at h
        split_ifs at h <;>
          (rw [Prod.mk.injEq] at h; obtain ⟨ht, hl2⟩ := h; subst ht; simp)
      · rw [loadOperatorsToken.eq_3 c1 (c2 :: rest2)
          (by intro r hr; injection hr with ha hb; exact hc2 ha)] at h
        rw [ite_self] at h
        cases h; simp

set_option maxHeartbeats 1000000 in
theorem keywordTok_shape {s : String} {t : Tok} (h : keywordTok s = some t) :
    t ≠ Tok.newline ∧ t ≠ Tok.indent ∧ t ≠ Tok.dedent ∧ t ≠ Tok.eof := by
  unfold keywordTok at h
  split_ifs at h <;> (cases h; decide)

/-! ## Shared fixtures for concrete runs -/

/-- An execution state with no instances, no closures, no output. -/
def stEmpty : St := { insts := [], clos := [], output := "" }

/-- A state whose single closure binds `x ↦ Bool(true)` and
`y ↦ Bool(false)`. -/
def stOrCex : St :=
  { insts := [], clos := [[("x", Value.vbool true), ("y", Value.vbool false)]], output := "" }

/-- A state whose single closure binds `n ↦ Number(5)`. -/
def stNum : St := { insts := [], clos := [[("n", Value.vnum 5)]], output := "" }

/-- A class with an empty method list (in particular, no `__eq__`). -/
def noEqClass : MClass := .mk "C" [] Option.none

/-- A state holding one instance of `noEqClass` at address 0. -/
def stEqCex : St := { insts := [⟨noEqClass, []⟩], clos := [], output := "" }

/-- A class with a single one-parameter method `m` whose body reads
its parameter. -/
def callWClass : MClass := .mk "W" [.mk "m" ["p"] (.variableValue ["p"])] Option.none

/-- A state holding one instance of `callWClass` at address 0. -/
def stCallW : St := { insts := [⟨callWClass, []⟩], clos := [], output := "" }

/-- A class whose `__eq__(rhs)` returns its argument. -/
def eqClass : MClass := .mk "D" [.mk "__eq__" ["rhs"] (.variableValue ["rhs"])] Option.none

/-- A state holding one instance of `eqClass` at address 0. -/
def stEqW : St := { insts := [⟨eqClass, []⟩], clos := [], output := "" }

/-! ## Class-table lemmas (helpers for C7) -/

/-- `GetMethod` finds exactly the first name match in the flattened
self-then-parent-chain method list. -/
theorem getMethod_eq_find_chain :
    ∀ (c : MClass) (n : String),
      c.getMethod n = c.chainMethods.find? (fun m => m.name = n) := by
  have aux : ∀ (k : Nat) (c : MClass), c.chainLen ≤ k → ∀ n,
      c.getMethod n = c.chainMethods.find? (fun m => m.name = n) := by
    intro k
    induction k with
    | zero =>
      intro c hc n
      match c with
      | .mk nm ms Option.none =>
        simp only [MClass.getMethod, MClass.chainMethods]
        cases ms.find? (fun m => m.name = n) <;> rfl
      | .mk nm ms (some p) => simp [MClass.chainLen] at hc
    | succ k ih =>
      intro c hc n
      match c with
      | .mk nm ms Option.none =>
        simp only [MClass.getMethod, MClass.chainMethods]
        cases ms.find? (fun m => m.name = n) <;> rfl
      | .mk nm ms (some p) =>
        have hp : p.chainLen ≤ k := by
          have := hc; simp [MClass.chainLen] at this; omega
        simp only [MClass.getMethod, MClass.chainMethods, List.find?_append]
        rw [ih p hp n]
        cases ms.find? (fun m => m.name = n) <;> simp [Option.or]
  intro c n
  exact aux c.chainLen c (Nat.le_refl _) n

/-- `HasMethod` succeeds exactly when lookup finds a method of the
requested arity. -/
theorem hasMethod_iff (c : MClass) (n : String) (argc : Nat) :
    hasMethodC c n argc = true ↔
      ∃ m, c.getMethod n = some m ∧ m.formalParams.length = argc := by
  unfold hasMethodC
  cases h : c.getMethod n with
  | none => simp
  | some m => simp

/-! ## Claim theorems -/

/-- Claim C7: `GetMethod(name)` returns the first method with a
matching name found by walking the class itself and then its parent
chain, without considering arity; and `HasMethod(name, argc)`
returns true iff that lookup yields a method whose formal-parameter
count equals `argc`. -/
theorem getMethod_chain_walk_hasMethod_arity :
    ∀ (c : MClass) (n : String),
      c.getMethod n = c.chainMethods.find? (fun m => m.name = n) ∧
      ∀ argc : Nat, hasMethodC c n argc = true ↔
        ∃ m, c.getMethod n = some m ∧ m.formalParams.length = argc :=
  fun c n => ⟨getMethod_eq_find_chain c n, fun argc => hasMethod_iff c n argc⟩

/-- Claim C8: `ClassInstance::Call` fails with the arity error
(`Not implemented`, the spec's ArityMismatch) when the class chain
has no method of the given name or when the found method's
formal-parameter count differs from the actual-argument count;
otherwise it executes the method body in a fresh closure binding
the formals to the actuals plus `self ↦` the receiver. -/
theorem call_checks_arity (fuel a : Nat) (mname : String) (args : List Value)
    (st : St) (d : InstData) (hd : st.getInst a = some d) :
    (d.cls.getMethod mname = Option.none →
      callM (fuel + 1) a mname args st = .error (.rtError "Not implemented", st)) ∧
    (∀ m, d.cls.getMethod mname = some m → m.formalParams.length ≠ args.length →
      callM (fuel + 1) a mname args st = .error (.rtError "Not implemented", st)) ∧
    (∀ m, d.cls.getMethod mname = some m → m.formalParams.length = args.length →
      callM (fuel + 1) a mname args st =
        exec fuel m.body st.clos.length
          { st with clos := st.clos ++ [(bindParams m.formalParams args).setK "self" (.vinst a)] }) := by
  refine ⟨?_, ?_, ?_⟩
  · intro hm; simp [callM, hd, hm]
  · intro m hm hne; simp [callM, hd, hm, hne]
  · intro m hm heq; simp [callM, hd, hm, heq]

/-- Witness for C8 on a concrete class: a matching call runs the
body in the fresh closure, a missing name and a wrong arity both
fail with `Not implemented`. -/
theorem call_checks_arity_witness :
    callM 4 0 "m" [Value.vnum 7] stCallW =
      exec 3 (Stmt.variableValue ["p"]) 0
        { stCallW with clos := [[("p", Value.vnum 7), ("self", Value.vinst 0)]] } ∧
    callM 4 0 "nope" [] stCallW = .error (.rtError "Not implemented", stCallW) ∧
    callM 4 0 "m" [] stCallW = .error (.rtError "Not implemented", stCallW) := by
  refine ⟨?_, ?_, ?_⟩
  · exact (call_checks_arity 3 0 "m" [Value.vnum 7] stCallW ⟨callWClass, []⟩ rfl).2.2
      (.mk "m" ["p"] (.variableValue ["p"])) rfl rfl
  · exact (call_checks_arity 3 0 "nope" [] stCallW ⟨callWClass, []⟩ rfl).1 rfl
  · exact (call_checks_arity 3 0 "m" [] stCallW ⟨callWClass, []⟩ rfl).2.1
      (.mk "m" ["p"] (.variableValue ["p"])) rfl (by decide)

/-- Claim C9: `IfElse::Execute` evaluates the condition, which must
yield a Bool: an empty condition fails the assert, a non-Bool
condition crashes on the null `TryAs<Bool>` downcast (never silent
truthiness); a Bool condition selects the branch, whose value
handle (possibly empty) is the node's result, and a false condition
with no else yields the empty handle. -/
theorem ifElse_cond (fuel : Nat) (c tB : Stmt) (eB : Option Stmt) (cl : Nat)
    (st st1 : St) (v : Value) (h : exec fuel c cl st = .ok (v, st1)) :
    (v = Value.none → exec (fuel + 1) (.ifElse c tB eB) cl st = .error (.assertFail, st1)) ∧
    (v.tryBool = Option.none → v ≠ Value.none →
      exec (fuel + 1) (.ifElse c tB eB) cl st = .error (.nullDeref, st1)) ∧
    (v = .vbool true → exec (fuel + 1) (.ifElse c tB eB) cl st = exec fuel tB cl st1) ∧
    (∀ el, v = .vbool false → eB = some el →
      exec (fuel + 1) (.ifElse c tB eB) cl st = exec fuel el cl st1) ∧
    (v = .vbool false → eB = Option.none →
      exec (fuel + 1) (.ifElse c tB eB) cl st = .ok (Value.none, st1)) := by
  refine ⟨?_, ?_, ?_, ?_, ?_⟩ <;> intros <;>
    cases v <;> simp_all [exec, Value.tryBool]

/-- Witness for C9: a true Bool condition runs the then-branch; a
false Bool condition with absent else yields the empty handle; a
String condition (from a `print` sub-expression, whose output
side effect persists) crashes with the null dereference. -/
theorem ifElse_cond_witness :
    exec 2 (.ifElse (.variableValue ["x"]) (.variableValue ["y"]) Option.none) 0 stOrCex
      = exec 1 (.variableValue ["y"]) 0 stOrCex ∧
    exec 2 (.ifElse (.variableValue ["y"]) (.variableValue ["x"]) Option.none) 0 stOrCex
      = .ok (Value.none, stOrCex) ∧
    exec 4 (.ifElse (.print [.variableValue ["x"]]) (.variableValue ["y"]) Option.none) 0 stOrCex
      = .error (.nullDeref,
          { insts := [], clos := [[("x", Value.vbool true), ("y", Value.vbool false)]],
            output := "True\n" }) := by
  refine ⟨?_, ?_, ?_⟩
  · exact (ifElse_cond 1 (.variableValue ["x"]) (.variableValue ["y"]) Option.none 0
      stOrCex stOrCex (.vbool true) rfl).2.2.1 rfl
  · exact (ifElse_cond 1 (.variableValue ["y"]) (.variableValue ["x"]) Option.none 0
      stOrCex stOrCex (.vbool false) rfl).2.2.2.2 rfl rfl
  · exact (ifElse_cond 3 (.print [.variableValue ["x"]]) (.variableValue ["y"]) Option.none 0
      stOrCex
      { insts := [], clos := [[("x", Value.vbool true), ("y", Value.vbool false)]],
        output := "True\n" }
      (.vstr "True\n") rfl).2.1 rfl (by simp)

/-- Claim C5: whenever `Less` and `Equal` succeed (at the states
where the derived comparators actually invoke them), the derived
comparators satisfy `greater = !less && !equal`,
`less_or_equal = less || equal`, `greater_or_equal = !less` and
`not_equal = !equal`. -/
theorem derived_comparators (fuel : Nat) (l r : Value) (st st1 st2 st0 : St)
    (bl be be0 : Bool)
    (hl : lessV fuel l r st = .ok (bl, st1))
    (he1 : equalV fuel l r st1 = .ok (be, st2))
    (he0 : equalV fuel l r st = .ok (be0, st0)) :
    notEqualV fuel l r st = .ok (!be0, st0) ∧
    greaterV fuel l r st = .ok (!bl && !be, if bl then st1 else st2) ∧
    lessOrEqualV fuel l r st = .ok (bl || be, if bl then st1 else st2) ∧
    greaterOrEqualV fuel l r st = .ok (!bl, st1) := by
  cases bl <;>
    simp_all [notEqualV, greaterV, lessOrEqualV, greaterOrEqualV]

/-- Witness for C5 on `Number(1)` vs `Number(2)`. -/
theorem derived_comparators_witness :
    notEqualV 1 (.vnum 1) (.vnum 2) stEmpty = .ok (true, stEmpty) ∧
    greaterV 1 (.vnum 1) (.vnum 2) stEmpty = .ok (false, stEmpty) ∧
    lessOrEqualV 1 (.vnum 1) (.vnum 2) stEmpty = .ok (true, stEmpty) ∧
    greaterOrEqualV 1 (.vnum 1) (.vnum 2) stEmpty = .ok (false, stEmpty) :=
  derived_comparators 1 (.vnum 1) (.vnum 2) stEmpty stEmpty stEmpty stEmpty
    true false false rfl rfl rfl

/-- Counterexample to Claim C1 as stated: with `x ↦ Bool(true)` and
`y ↦ Bool(false)`, `Or(x, print x)` returns `Bool(true)` with the
state (in particular the output stream) unchanged, and
`And(y, print x)` likewise — yet executing the right operand alone
does write `True\n`.  So the right operand's side effects do not
occur when the left operand determines the result: the claimed
unconditional evaluation of both operands is false. -/
theorem or_rhs_side_effect_skipped_cex :
    exec 10 (.orStmt (.variableValue ["x"]) (.print [.variableValue ["x"]])) 0 stOrCex
      = .ok (.vbool true, stOrCex) ∧
    exec 10 (.andStmt (.variableValue ["y"]) (.print [.variableValue ["x"]])) 0 stOrCex
      = .ok (.vbool false, stOrCex) ∧
    stOrCex.output = "" ∧
    exec 10 (.print [.variableValue ["x"]]) 0 stOrCex
      = .ok (.vstr "True\n",
          { insts := [], clos := [[("x", Value.vbool true), ("y", Value.vbool false)]],
            output := "True\n" }) :=
  ⟨rfl, rfl, rfl, rfl⟩

/-- Claim C1 (amended): `Or` and `And` short-circuit.  The left
operand is always evaluated and truth-tested; when that test
already determines the result (`true` for `Or`, `false` for `And`)
the node returns the owning Bool result with the right operand not
evaluated (the result state is exactly the state after the left
test); otherwise the right operand is evaluated and truth-tested
and the node returns the owning Bool of that test. -/
theorem or_and_short_circuit (fuel : Nat) (lhs rhs : Stmt) (cl : Nat)
    (st st1 st2 : St) (v1 : Value) (b1 : Bool)
    (hl : exec fuel lhs cl st = .ok (v1, st1))
    (ht : equalV fuel v1 (.vbool true) st1 = .ok (b1, st2)) :
    (b1 = true → exec (fuel + 1) (.orStmt lhs rhs) cl st = .ok (.vbool true, st2)) ∧
    (b1 = false → exec (fuel + 1) (.andStmt lhs rhs) cl st = .ok (.vbool false, st2)) ∧
    (b1 = false → ∀ v2 st3 b2 st4, exec fuel rhs cl st2 = .ok (v2, st3) →
      equalV fuel v2 (.vbool true) st3 = .ok (b2, st4) →
      exec (fuel + 1) (.orStmt lhs rhs) cl st = .ok (.vbool b2, st4)) ∧
    (b1 = true → ∀ v2 st3 b2 st4, exec fuel rhs cl st2 = .ok (v2, st3) →
      equalV fuel v2 (.vbool true) st3 = .ok (b2, st4) →
      exec (fuel + 1) (.andStmt lhs rhs) cl st = .ok (.vbool b2, st4)) := by
  refine ⟨?_, ?_, ?_, ?_⟩
  · intro hb; subst hb; simp [exec, hl, ht]
  · intro hb; subst hb; simp [exec, hl, ht]
  · intro hb v2 st3 b2 st4 hr ht2; subst hb; simp [exec, hl, ht, hr, ht2]
  · intro hb v2 st3 b2 st4 hr ht2; subst hb; simp [exec, hl, ht, hr, ht2]

/-- Witness for the amended C1: the concrete short-circuiting runs
of the counterexample, derived by applying the theorem. -/
theorem or_and_short_circuit_witness :
    exec 11 (.orStmt (.variableValue ["x"]) (.print [.variableValue ["x"]])) 0 stOrCex
      = .ok (.vbool true, stOrCex) ∧
    exec 11 (.andStmt (.variableValue ["y"]) (.print [.variableValue ["x"]])) 0 stOrCex
      = .ok (.vbool false, stOrCex) := by
  refine ⟨?_, ?_⟩
  · exact (or_and_short_circuit 10 (.variableValue ["x"]) (.print [.variableValue ["x"]])
      0 stOrCex stOrCex stOrCex (.vbool true) true rfl rfl).1 rfl
  · exact (or_and_short_circuit 10 (.variableValue ["y"]) (.print [.variableValue ["x"]])
      0 stOrCex stOrCex stOrCex (.vbool false) false rfl rfl).2.1 rfl

/-- Claim C10: the truth test of `Or`/`And` is `runtime::Equal`
against an owned `Bool(true)`, not the `runtime::IsTrue` truthiness
contract: on a Number, a String or an empty handle it throws the
equality TypeMismatch error (and so does the whole `Or`/`And` node
once its evaluated operand has such a value), whereas
`runtime::IsTrue` would have yielded nonzero / nonempty / false. -/
theorem or_and_truth_test (fuel : Nat) :
    (∀ (n : Int) (st : St), astIsTrue (fuel + 1) (.vnum n) st =
      .error (.rtError "Cannot compare objects for equality", st)) ∧
    (∀ (s : String) (st : St), astIsTrue (fuel + 1) (.vstr s) st =
      .error (.rtError "Cannot compare objects for equality", st)) ∧
    (∀ st : St, astIsTrue (fuel + 1) Value.none st =
      .error (.rtError "Cannot compare objects for equality", st)) ∧
    (∀ n : Int, runtimeIsTrue (.vnum n) = (n != 0)) ∧
    (∀ s : String, runtimeIsTrue (.vstr s) = !(s = "")) ∧
    (runtimeIsTrue Value.none = false) ∧
    (∀ (lhs rhs : Stmt) (cl : Nat) (st st1 : St) (v1 : Value),
      exec (fuel + 1) lhs cl st = .ok (v1, st1) →
      v1.tryBool = Option.none → v1.tryInst = Option.none →
      exec (fuel + 2) (.orStmt lhs rhs) cl st =
        .error (.rtError "Cannot compare objects for equality", st1) ∧
      exec (fuel + 2) (.andStmt lhs rhs) cl st =
        .error (.rtError "Cannot compare objects for equality", st1)) := by
  refine ⟨?_, ?_, ?_, ?_, ?_, ?_, ?_⟩
  · intro n st; simp [astIsTrue, equalV, eqBoolV, eqNumV, eqStrV]
  · intro s st; simp [astIsTrue, equalV, eqBoolV, eqNumV, eqStrV]
  · intro st; simp [astIsTrue, equalV, eqBoolV, eqNumV, eqStrV]
  · intro n; rfl
  · intro s; rfl
  · rfl
  · intro lhs rhs cl st st1 v1 hl h1 h2
    cases v1 <;> simp_all [exec, equalV, eqBoolV, eqNumV, eqStrV, Value.tryBool, Value.tryInst]

/-- Witness for C10: `Or`/`And` on a Number operand (`n ↦ 5`)
fail with the equality TypeMismatch. -/
theorem or_and_truth_test_witness :
    exec 2 (.orStmt (.variableValue ["n"]) (.variableValue ["n"])) 0 stNum
      = .error (.rtError "Cannot compare objects for equality", stNum) ∧
    exec 2 (.andStmt (.variableValue ["n"]) (.variableValue ["n"])) 0 stNum
      = .error (.rtError "Cannot compare objects for equality", stNum) :=
  (or_and_truth_test 0).2.2.2.2.2.2 (.variableValue ["n"]) (.variableValue ["n"])
    0 stNum stNum (.vnum 5) rfl rfl rfl

/-- Counterexample to Claim C4 as stated: equality on a class
instance without `__eq__` fails with `Not implemented` (the arity
error of `Call`), not with the TypeMismatch error the claimed
cascade prescribes for `every other case`. -/
theorem equal_missing_eq_cex :
    equalV 5 (.vinst 0) (.vnum 1) stEqCex = .error (.rtError "Not implemented", stEqCex) ∧
    "Not implemented" ≠ "Cannot compare objects for equality" :=
  ⟨rfl, by decide⟩

/-- Claim C4 (amended): the `Equal` cascade is: both empty ⇒ true;
both Bool / both Number / both String ⇒ value equality; a
ClassInstance on the left ⇒ unconditional `__eq__` dispatch through
`Call`, which fails with `Not implemented` when the method is
missing or its arity is not 1, and otherwise the Bool value of the
dispatch result is returned (a non-Bool result null-crashes); only
when the left value is not a ClassInstance and no earlier case
applies does it fail with TypeMismatch. -/
theorem equal_cascade (fuel : Nat) (st : St) :
    (equalV (fuel + 1) Value.none Value.none st = .ok (true, st)) ∧
    (∀ a b : Bool, equalV (fuel + 1) (.vbool a) (.vbool b) st = .ok (decide (a = b), st)) ∧
    (∀ a b : Int, equalV (fuel + 1) (.vnum a) (.vnum b) st = .ok (decide (a = b), st)) ∧
    (∀ a b : String, equalV (fuel + 1) (.vstr a) (.vstr b) st = .ok (decide (a = b), st)) ∧
    (∀ (r : Value) (a : Nat) (d : InstData), st.getInst a = some d →
      d.cls.getMethod "__eq__" = Option.none →
      equalV (fuel + 2) (.vinst a) r st = .error (.rtError "Not implemented", st)) ∧
    (∀ (r : Value) (a : Nat) (d : InstData) (m : MMethod), st.getInst a = some d →
      d.cls.getMethod "__eq__" = some m → m.formalParams.length ≠ 1 →
      equalV (fuel + 2) (.vinst a) r st = .error (.rtError "Not implemented", st)) ∧
    (∀ (r : Value) (a : Nat) (d : InstData) (m : MMethod) (v : Value) (st1 : St),
      st.getInst a = some d →
      d.cls.getMethod "__eq__" = some m → m.formalParams.length = 1 →
      exec fuel m.body st.clos.length
        { st with clos := st.clos ++ [(bindParams m.formalParams [r]).setK "self" (.vinst a)] }
        = .ok (v, st1) →
      equalV (fuel + 2) (.vinst a) r st =
        (match v.tryBool with
         | some b => .ok (b, st1)
         | Option.none => .error (.nullDeref, st1))) ∧
    (∀ l r : Value, eqBoolV l r = Option.none → eqNumV l r = Option.none →
      eqStrV l r = Option.none → l.tryInst = Option.none →
      (l = Value.none → r ≠ Value.none) →
      equalV (fuel + 1) l r st = .error (.rtError "Cannot compare objects for equality", st)) := by
  refine ⟨?_, ?_, ?_, ?_, ?_, ?_, ?_, ?_⟩
  · simp [equalV]
  · intro a b; simp [equalV, eqBoolV]
  · intro a b; simp [equalV, eqBoolV, eqNumV]
  · intro a b; simp [equalV, eqBoolV, eqNumV, eqStrV]
  · intro r a d hd hm
    simp [equalV, eqBoolV, eqNumV, eqStrV, callM, hd, hm]
  · intro r a d m hd hm hne
    simp [equalV, eqBoolV, eqNumV, eqStrV, callM, hd, hm, hne]
  · intro r a d m v st1 hd hm hlen hex
    simp [equalV, eqBoolV, eqNumV, eqStrV, callM, hd, hm, hlen, hex]
  · intro l r h1 h2 h3 h4 h5
    cases l <;> cases r <;>
      simp_all [equalV, eqBoolV, eqNumV, eqStrV, Value.tryInst]

/-- Witness for the amended C4: a dispatching `__eq__` returns the
Bool of its result; same-kind Numbers compare by value; a Number
against a String is the TypeMismatch case. -/
theorem equal_cascade_witness :
    equalV 3 (.vinst 0) (.vbool false) stEqW =
      .ok (false, { stEqW with clos := [[("rhs", Value.vbool false), ("self", Value.vinst 0)]] }) ∧
    equalV 1 (.vnum 3) (.vnum 3) stEmpty = .ok (true, stEmpty) ∧
    equalV 1 (.vnum 3) (.vstr "a") stEmpty
      = .error (.rtError "Cannot compare objects for equality", stEmpty) := by
  refine ⟨?_, ?_, ?_⟩
  · exact (equal_cascade 1 stEqW).2.2.2.2.2.2.1 (.vbool false) 0 ⟨eqClass, []⟩
      (.mk "__eq__" ["rhs"] (.variableValue ["rhs"])) (.vbool false)
      { stEqW with clos := [[("rhs", Value.vbool false), ("self", Value.vinst 0)]] }
      rfl rfl rfl rfl
  · exact (equal_cascade 0 stEmpty).2.2.1 3 3
  · exact (equal_cascade 0 stEmpty).2.2.2.2.2.2.2 (.vnum 3) (.vstr "a")
      rfl rfl rfl rfl (by simp)

end Mython

namespace Mython

/-- Variant of `nlInv` for states entering the core scan (the
line-start processing has already happened). -/
def nlInvC (st : LexSt) : Prop :=
  endsNl st.inp ∨ (st.inp = [] ∧ st.indent = 0)

theorem endsNl_tail {c : Char} {l : List Char} (h : endsNl (c :: l)) (hl : l ≠ []) :
    endsNl l := by
  cases l with
  | nil => exact absurd rfl hl
  | cons x xs => simpa [endsNl] using h

theorem endsNl_inp2 {l : List Char} (he : endsNl l) :
    endsNl (if (l.dropWhile (fun c => c = ' ')).head? = some '#'
            then (l.dropWhile (fun c => c = ' ')).dropWhile (fun c => c ≠ '\n')
            else l.dropWhile (fun c => c = ' ')) := by
  have h1 : endsNl (l.dropWhile (fun c => c = ' ')) :=
    endsNl_dropWhile _ (by decide) he
  split
  · exact endsNl_dropWhile _ (by decide) h1
  · exact h1

theorem cons_of_head? {α : Type} {l : List α} {c : α} (h : l.head? = some c) :
    l = c :: l.tail := by
  cases l with
  | nil => simp at h
  | cons x xs => simp at h; subst h; rfl

theorem loadTokenCore_inl {st : LexSt} {t : Tok} {st' : LexSt}
    (h : loadTokenCore st = .ok (.inl (t, st'))) :
    st'.toks = st.toks ∧ st'.indent = st.indent ∧
    t ≠ Tok.indent ∧ t ≠ Tok.dedent ∧
    (t = Tok.newline → st'.toks.getLast? ≠ some Tok.newline) ∧
    (nlInvC st → nlInv st' ∧ (t = Tok.eof → st'.indent = 0)) := by
  simp only [loadTokenCore] at h
  set inp1 := st.inp.dropWhile (fun c => c = ' ') with hinp1
  set inp2 := (if inp1.head? = some '#' then inp1.dropWhile (fun c => c ≠ '\n') else inp1)
    with hinp2
  have hinv : nlInvC st → endsNl inp2 ∨ (inp2 = [] ∧ st.indent = 0) := by
    intro hn
    rcases hn with hn | ⟨hn1, hn2⟩
    · left; rw [hinp2, hinp1]; exact endsNl_inp2 hn
    · refine Or.inr ⟨?_, hn2⟩
      rw [hinp2, hinp1, hn1]; simp
  clear_value inp2
  clear hinp2 hinp1
  split at h
  · rename_i heq
    split_ifs at h with hg
    · simp at h
    · rw [Except.ok.injEq, Sum.inl.injEq, Prod.mk.injEq] at h
      obtain ⟨ht, hst⟩ := h
      subst ht
      subst hst
      push_neg at hg
      refine ⟨rfl, rfl, by simp, by simp, fun _ => hg.2, ?_⟩
      intro hn
      refine ⟨?_, by simp⟩
      rcases hinv hn with he2 | ⟨he2, _⟩
      · rw [cons_of_head? heq] at he2
        by_cases htl : inp2.tail = []
        · exact Or.inr ⟨htl, Or.inl rfl⟩
        · exact Or.inl (endsNl_tail he2 htl)
      · rw [he2] at heq; simp at heq
  · rename_i heq
    have h2 : inp2 = [] := by
      cases hi : inp2 with
      | nil => rfl
      | cons x xs => rw [hi] at heq; simp at heq
    have hnl : nlInvC st → st.indent = 0 := by
      intro hn
      rcases hinv hn with he2 | ⟨_, he2⟩
      · exact absurd h2 (endsNl_ne_nil he2)
      · exact he2
    split_ifs at h with hg1 hg2 <;>
      (rw [Except.ok.injEq, Sum.inl.injEq, Prod.mk.injEq] at h;
       obtain ⟨ht, hst⟩ := h; subst ht; subst hst)
    · refine ⟨rfl, rfl, by simp, by simp, by simp, ?_⟩
      intro hn
      exact ⟨Or.inr ⟨h2, Or.inr (hnl hn)⟩, fun _ => hnl hn⟩
    · refine ⟨rfl, rfl, by simp, by simp, by simp, ?_⟩
      intro hn
      exact ⟨Or.inr ⟨h2, Or.inr (hnl hn)⟩, fun _ => hnl hn⟩
    · push_neg at hg2
      refine ⟨rfl, rfl, by simp, by simp, fun _ => hg2.1, ?_⟩
      intro hn
      exact ⟨Or.inr ⟨h2, Or.inr (hnl hn)⟩, by simp⟩
  · rename_i x c hcn heq
    have hinp2c : inp2 = c :: inp2.tail := cons_of_head? heq
    have hcn2 : c ≠ '\n' := fun hcc => hcn hcc
    have hent : nlInvC st → endsNl inp2 := by
      intro hn
      rcases hinv hn with he2 | ⟨he2, _⟩
      · exact he2
      · rw [he2] at heq; simp at heq
    split_ifs at h with hs hd hov hid
    · -- string literal
      have hq : c ≠ '\n' := hcn2
      cases hsb : loadStringBody c inp2.tail "" with
      | error e => rw [hsb] at h; simp at h
      | ok pr =>
        match pr with
        | (s, rest) =>
          rw [hsb] at h
          rw [Except.ok.injEq, Sum.inl.injEq, Prod.mk.injEq] at h
          obtain ⟨ht, hst⟩ := h; subst ht; subst hst
          refine ⟨rfl, rfl, by simp, by simp, by simp, ?_⟩
          intro hn
          refine ⟨Or.inl ?_, by simp⟩
          refine loadStringBody_endsNl hq (inp2.tail.length) inp2.tail (Nat.le_refl _)
            _ _ _ hsb ?_
          exact endsNl_cons (hinp2c ▸ hent hn) hq
    · rw [Except.ok.injEq, Sum.inl.injEq, Prod.mk.injEq] at h
      obtain ⟨ht, hst⟩ := h; subst ht; subst hst
      refine ⟨rfl, rfl, by simp, by simp, by simp, ?_⟩
      intro hn
      exact ⟨Or.inl (endsNl_dropWhile _ (by decide) (hent hn)), by simp⟩
    · -- identifier / keyword
      rw [Except.ok.injEq, Sum.inl.injEq, Prod.mk.injEq] at h
      obtain ⟨ht, hst⟩ := h; subst ht; subst hst
      have hshape : ∀ tk, (match keywordTok (String.mk (inp2.takeWhile IsIdCharacter)) with
          | some kw => kw
          | Option.none => Tok.id (String.mk (inp2.takeWhile IsIdCharacter))) = tk →
          tk ≠ Tok.indent ∧ tk ≠ Tok.dedent ∧ tk ≠ Tok.newline ∧ tk ≠ Tok.eof := by
        intro tk htk
        cases hk : keywordTok (String.mk (inp2.takeWhile IsIdCharacter)) with
        | none => rw [hk] at htk; subst htk; simp
        | some kw =>
          rw [hk] at htk; subst htk
          obtain ⟨a, b, c, d⟩ := keywordTok_shape hk
          exact ⟨b, c, a, d⟩
      obtain ⟨s1, s2, s3, s4⟩ := hshape _ rfl
      refine ⟨rfl, rfl, s1, s2, fun hcon => absurd hcon s3, ?_⟩
      intro hn
      refine ⟨Or.inl (endsNl_dropWhile _ (by decide) (hent hn)), fun hcon => absurd hcon s4⟩
    · -- operator
      rw [Except.ok.injEq, Sum.inl.injEq, Prod.mk.injEq] at h
      obtain ⟨ht, hst⟩ := h; subst ht; subst hst
      have hop : loadOperatorsToken inp2 =
          ((loadOperatorsToken inp2).1, (loadOperatorsToken inp2).2) := rfl
      obtain ⟨o1, o2, o3, o4⟩ := loadOperatorsToken_shape hop
      refine ⟨rfl, rfl, o2, o3, fun hcon => absurd hcon o1, ?_⟩
      intro hn
      refine ⟨Or.inl (loadOperatorsToken_endsNl hop ?_ (hent hn)), fun hcon => absurd hcon o4⟩
      rw [heq]
      intro hcc
      exact hcn (by injection hcc)

theorem loadTokenCore_inr {st st2 : LexSt} (h : loadTokenCore st = .ok (.inr st2)) :
    st2.toks = st.toks ∧ st2.indent = st.indent ∧ st2.newline = true ∧
    (nlInvC st → nlInv st2) := by
  simp only [loadTokenCore] at h
  set inp1 := st.inp.dropWhile (fun c => c = ' ') with hinp1
  set inp2 := (if inp1.head? = some '#' then inp1.dropWhile (fun c => c ≠ '\n') else inp1)
    with hinp2
  have hinv : nlInvC st → endsNl inp2 ∨ (inp2 = [] ∧ st.indent = 0) := by
    intro hn
    rcases hn with hn | ⟨hn1, hn2⟩
    · left; rw [hinp2, hinp1]; exact endsNl_inp2 hn
    · refine Or.inr ⟨?_, hn2⟩
      rw [hinp2, hinp1, hn1]; simp
  clear_value inp2
  clear hinp2 hinp1
  split at h
  · rename_i heq
    split_ifs at h with hg
    · rw [Except.ok.injEq, Sum.inr.injEq] at h
      subst h
      refine ⟨rfl, rfl, rfl, ?_⟩
      intro hn
      rcases hinv hn with he2 | ⟨he2, _⟩
      · rw [cons_of_head? heq] at he2
        by_cases htl : inp2.tail = []
        · exact Or.inr ⟨htl, Or.inl rfl⟩
        · exact Or.inl (endsNl_tail he2 htl)
      · rw [he2] at heq; simp at heq
    · simp at h
  · rename_i heq
    split_ifs at h <;> simp at h
  · rename_i x c hcn heq
    split_ifs at h with hs hd hov hid
    · cases hsb : loadStringBody c inp2.tail "" with
      | error e => rw [hsb] at h; simp at h
      | ok pr => match pr with
        | (s, rest) => rw [hsb] at h; simp at h
    · simp at h
    · simp at h
    · simp at h

end Mython

namespace Mython

theorem loadToken_step : ∀ (f : Nat) (st0 : LexSt) (t : Tok) (st' : LexSt),
    loadToken f st0 = .ok (t, st') → Inv0 st0 →
    Inv0 st' ∧ t ≠ Tok.indent ∧ t ≠ Tok.dedent ∧
    (t = Tok.newline → st'.toks.getLast? ≠ some Tok.newline) ∧
    (nlInv st0 → nlInv st' ∧ (t = Tok.eof → st'.indent = 0)) := by
  intro f
  induction f with
  | zero => intro st0 t st' h; simp [loadToken] at h
  | succ f ih =>
    intro st0 t st' h hI
    simp only [loadToken] at h
    split at h
    · simp at h
    · rename_i stm hmid
      have hstm : Inv0 stm ∧ (nlInv st0 → nlInvC stm) := by
        by_cases hnl : st0.newline = true
        · rw [if_pos hnl] at hmid
          refine ⟨⟨calcIndent_ok_count hmid hI.1, calcIndent_ok_noNN hmid hI.2.1,
            calcIndent_ok_eofcount hmid hI.2.2⟩, ?_⟩
          intro hn
          rcases hn with hn | ⟨hn1, hn2⟩
          · left; rw [calcIndent_ok_inp hmid]
            exact endsNl_dropWhile _ (by decide) hn
          · obtain ⟨e1, e2, _⟩ := calcIndent_empty hmid hn1
            exact Or.inr ⟨e1, e2⟩
        · rw [if_neg hnl] at hmid
          cases hmid
          refine ⟨hI, ?_⟩
          intro hn
          rcases hn with hn | ⟨hn1, hn2⟩
          · exact Or.inl hn
          · rcases hn2 with hn2 | hn2
            · exact absurd hn2 (by simpa using hnl)
            · exact Or.inr ⟨hn1, hn2⟩
      obtain ⟨hstmI, hstmN⟩ := hstm
      split at h
      · simp at h
      · rename_i r hcore
        rw [Except.ok.injEq] at h
        subst h
        obtain ⟨c1, c2, c3, c4, c5, c6⟩ := loadTokenCore_inl hcore
        refine ⟨?_, c3, c4, c5, fun hn => c6 (hstmN hn)⟩
        unfold Inv0 at hstmI ⊢
        rw [c1, c2]
        exact hstmI
      · rename_i st2 hcore
        obtain ⟨d1, d2, d3, d4⟩ := loadTokenCore_inr hcore
        have hI2 : Inv0 st2 := by
          unfold Inv0 at hstmI ⊢
          rw [d1, d2]
          exact hstmI
        obtain ⟨e1, e2, e3, e4, e5⟩ := ih st2 t st' h hI2
        exact ⟨e1, e2, e3, e4, fun hn => e5 (d4 (hstmN hn))⟩

theorem lexLoop_inv : ∀ (f : Nat) (st : LexSt) (ts : List Tok),
    lexLoop f st = .ok ts → Inv0 st →
    ts.getLast? = some Tok.eof ∧ noNN ts ∧
    (nlInv st → ts.count Tok.indent = ts.count Tok.dedent) := by
  intro f
  induction f with
  | zero => intro st ts h; simp [lexLoop] at h
  | succ f ih =>
    intro st ts h hI
    simp only [lexLoop] at h
    split at h
    · simp at h
    · rename_i t st1 hload
      obtain ⟨⟨i1, i2, i3⟩, s2, s3, s4, s5⟩ := loadToken_step _ _ _ _ hload hI
      split_ifs at h with ht
      · subst ht
        rw [Except.ok.injEq] at h
        subst h
        refine ⟨by simp [List.getLast?_concat], ?_, ?_⟩
        · unfold noNN at i2 ⊢
          rw [List.chain'_append]
          refine ⟨i2, by simp, ?_⟩
          intro x hx y hy
          simp at hy
          subst hy
          simp
        · intro hn
          have hind : st1.indent = 0 := ((s5 hn).2) rfl
          rw [List.count_append, List.count_append]
          rw [hind] at i1
          simp [i1]
      · have hI2 : Inv0 { st1 with toks := st1.toks ++ [t] } := by
          refine ⟨?_, ?_, ?_⟩
          · simp only [List.count_append]
            have e1 : List.count Tok.indent [t] = 0 := by
              simp [List.count_singleton]
              intro hcon
              exact absurd hcon s2
            have e2 : List.count Tok.dedent [t] = 0 := by
              simp [List.count_singleton]
              intro hcon
              exact absurd hcon s3
            rw [e1, e2]
            simpa using i1
          · unfold noNN at i2 ⊢
            rw [List.chain'_append]
            refine ⟨i2, by simp, ?_⟩
            intro x hx y hy
            simp at hy
            subst hy
            intro hcon
            exact (s4 hcon.2) (hcon.1 ▸ hx)
          · simp only [List.count_append]
            have e3 : List.count Tok.eof [t] = 0 := by
              simp [List.count_singleton]
              intro hcon
              exact absurd hcon ht
            rw [e3]
            simpa using i3
        obtain ⟨r1, r2, r3⟩ := ih _ _ h hI2
        refine ⟨r1, r2, ?_⟩
        intro hn
        apply r3
        exact (s5 hn).1

end Mython

namespace Mython

/-- Discriminator for thrown `LexerError`s among lexer failure
modes. -/
def LexErr.isLexerError : LexErr → Bool
  | .lexerError _ => true
  | _ => false

/-- Claim C2 (amended): every accepted token stream ends with `Eof`
and never holds two consecutive `Newline` tokens; the Indent/Dedent
balance (`count Indent = count Dedent`) holds whenever the input is
empty or ends with a newline character, but not in general: missing
`Dedent`s are NOT emitted at end of input when the file lacks a
trailing newline (see `lexer_unmatched_indent_cex`), because
`CalculateIndent` only runs at a line start and the EOF path of
`LoadToken` never emits `Dedent`s. -/
theorem lexer_stream_invariants (s : String) (ts : List Tok)
    (h : lexTokens s = .ok ts) :
    ts.getLast? = some Tok.eof ∧ noNN ts ∧
    ((s.data = [] ∨ s.data.getLast? = some '\n') →
      ts.count Tok.indent = ts.count Tok.dedent) := by
  obtain ⟨r1, r2, r3⟩ := lexLoop_inv _ _ _ h ⟨by simp, by simp [noNN], by simp⟩
  refine ⟨r1, r2, fun hd => r3 ?_⟩
  rcases hd with hd | hd
  · exact Or.inr ⟨hd, Or.inl rfl⟩
  · exact Or.inl hd

/-- Counterexample to Claim C2 as stated: the source `"a\n  b"`
(no trailing newline) is accepted with one `Indent` and no
`Dedent` — the missing `Dedent` is not emitted at end of input. -/
theorem lexer_unmatched_indent_cex :
    lexTokens "a\n  b" = .ok [.id "a", .newline, .indent, .id "b", .newline, .eof] ∧
    ([Tok.id "a", Tok.newline, Tok.indent, Tok.id "b", Tok.newline, Tok.eof].count Tok.indent
      = 1) ∧
    ([Tok.id "a", Tok.newline, Tok.indent, Tok.id "b", Tok.newline, Tok.eof].count Tok.dedent
      = 0) := by
  exact ⟨rfl, by decide, by decide⟩

theorem lexer_stream_invariants_witness :
    ([Tok.id "a", Tok.newline, Tok.indent, Tok.id "b", Tok.newline, Tok.dedent, Tok.eof]
      : List Tok).getLast? = some Tok.eof ∧
    noNN [Tok.id "a", Tok.newline, Tok.indent, Tok.id "b", Tok.newline, Tok.dedent, Tok.eof] ∧
    [Tok.id "a", Tok.newline, Tok.indent, Tok.id "b", Tok.newline, Tok.dedent,
      Tok.eof].count Tok.indent =
    [Tok.id "a", Tok.newline, Tok.indent, Tok.id "b", Tok.newline, Tok.dedent,
      Tok.eof].count Tok.dedent := by
  have h := lexer_stream_invariants "a\n  b\n"
    [Tok.id "a", Tok.newline, Tok.indent, Tok.id "b", Tok.newline, Tok.dedent, Tok.eof] rfl
  exact ⟨h.1, h.2.1, h.2.2 (Or.inr rfl)⟩

theorem takeWhile_space_replicate (s : Nat) (rest : List Char) (h : rest.head? ≠ some ' ') :
    (List.replicate s ' ' ++ rest).takeWhile (fun c => c = ' ') = List.replicate s ' ' ∧
    (List.replicate s ' ' ++ rest).dropWhile (fun c => c = ' ') = rest := by
  induction s with
  | zero =>
    simp only [List.replicate, List.nil_append]
    cases rest with
    | nil => simp
    | cons c cs =>
      have hc : ¬(c = ' ') := by
        intro hcc
        exact h (by simp [hcc])
      simp [List.takeWhile_cons, List.dropWhile_cons, hc]
  | succ n ih =>
    simp only [List.replicate_succ, List.cons_append]
    constructor
    · rw [List.takeWhile_cons_of_pos (by simp)]
      rw [ih.1]
    · rw [List.dropWhile_cons_of_pos (by simp)]
      exact ih.2

theorem calcIndent_nonblank (st : LexSt) (s : Nat) (rest : List Char)
    (hin : st.inp = List.replicate s ' ' ++ rest)
    (h1 : rest.head? ≠ some ' ') (h2 : rest.head? ≠ some '\n') :
    calcIndent st = (if s % 2 ≠ 0 then .error .assertFail
      else .ok
        { inp := rest,
          toks := st.toks ++ List.replicate
            (if s / 2 ≥ st.indent then s / 2 - st.indent else st.indent - s / 2)
            (if s / 2 > st.indent then Tok.indent else Tok.dedent),
          indent := s / 2, newline := false }) := by
  obtain ⟨ht, hd⟩ := takeWhile_space_replicate s rest h1
  simp only [calcIndent, hin, ht, hd, List.length_replicate]

theorem loadToken_calcErr (f : Nat) (st0 : LexSt) (e : LexErr)
    (hnl : st0.newline = true) (hci : calcIndent st0 = .error e) :
    loadToken (f + 1) st0 = .error e := by
  simp only [loadToken, hnl, if_true, hci]

theorem lexLoop_loadErr (f : Nat) (st : LexSt) (e : LexErr)
    (h : loadToken (f + 1) st = .error e) :
    lexLoop (f + 1) st = .error e := by
  simp only [lexLoop, h]

/-- Claim C3 (amended): on a line that is not blank for layout
purposes (the leading spaces are not immediately followed by a
newline), an odd leading-space count makes `CalculateIndent` — and
the whole lexer run — fail with `assert(counter % 2 == 0)`, a failed
assertion rather than a thrown `LexerError`; an even count sets the
line's indent level to count / 2. -/
theorem odd_indent_asserts (st : LexSt) (s : Nat) (rest : List Char)
    (hin : st.inp = List.replicate s ' ' ++ rest)
    (h1 : rest.head? ≠ some ' ') (h2 : rest.head? ≠ some '\n') :
    (s % 2 = 1 → calcIndent st = .error .assertFail) ∧
    (s % 2 = 0 → ∃ st1, calcIndent st = .ok st1 ∧ st1.indent = s / 2 ∧
      st1.inp = rest ∧ st1.newline = false) ∧
    (s % 2 = 1 →
      lexTokens (String.mk (List.replicate s ' ' ++ rest)) = .error .assertFail) := by
  refine ⟨?_, ?_, ?_⟩
  · intro hodd
    rw [calcIndent_nonblank st s rest hin h1 h2, if_pos (by omega)]
  · intro heven
    rw [calcIndent_nonblank st s rest hin h1 h2, if_neg (by omega)]
    exact ⟨_, rfl, rfl, rfl, rfl⟩
  · intro hodd
    have hci : calcIndent
        { inp := (String.mk (List.replicate s ' ' ++ rest)).data,
          toks := [], indent := 0, newline := true } = .error .assertFail := by
      rw [calcIndent_nonblank
        { inp := (String.mk (List.replicate s ' ' ++ rest)).data,
          toks := [], indent := 0, newline := true } s rest rfl h1 h2, if_pos (by omega)]
    unfold lexTokens
    have hf : (String.mk (List.replicate s ' ' ++ rest)).data.length * 2 + 4
        = ((String.mk (List.replicate s ' ' ++ rest)).data.length * 2 + 3) + 1 := by omega
    rw [hf]
    exact lexLoop_loadErr ((String.mk (List.replicate s ' ' ++ rest)).data.length * 2 + 3)
      { inp := (String.mk (List.replicate s ' ' ++ rest)).data,
        toks := [], indent := 0, newline := true } .assertFail
      (loadToken_calcErr ((String.mk (List.replicate s ' ' ++ rest)).data.length * 2 + 3)
        { inp := (String.mk (List.replicate s ' ' ++ rest)).data,
          toks := [], indent := 0, newline := true } .assertFail rfl hci)

theorem odd_indent_asserts_witness :
    calcIndent { inp := [' ', 'a'], toks := [], indent := 0, newline := true }
      = .error .assertFail ∧
    lexTokens (String.mk [' ', 'a']) = .error .assertFail ∧
    (∃ st1, calcIndent { inp := [' ', ' ', 'b'], toks := [], indent := 0, newline := true }
      = .ok st1 ∧ st1.indent = 1 ∧ st1.inp = ['b'] ∧ st1.newline = false) := by
  have ha := odd_indent_asserts
    { inp := [' ', 'a'], toks := [], indent := 0, newline := true } 1 ['a']
    rfl (by decide) (by decide)
  have hb := odd_indent_asserts
    { inp := [' ', ' ', 'b'], toks := [], indent := 0, newline := true } 2 ['b']
    rfl (by decide) (by decide)
  exact ⟨ha.1 rfl, ha.2.2 rfl, hb.2.1 rfl⟩

/-- Counterexample to Claim C3 as stated: the odd-indent input
`" a"` fails with the failed assertion, which is not a
`LexerError`. -/
theorem odd_indent_not_lexer_error_cex :
    lexTokens " a" = .error .assertFail ∧
    LexErr.assertFail.isLexerError = false :=
  ⟨rfl, rfl⟩

theorem loadTokenCore_eof (st : LexSt) (hin : st.inp = []) :
    loadTokenCore st =
      (if st.toks = [] then .ok (.inl (Tok.eof, st))
       else if st.toks.getLast? = some Tok.newline ∨ st.toks.getLast? = some Tok.dedent then
         .ok (.inl (Tok.eof, st))
       else .ok (.inl (Tok.newline, st))) := by
  obtain ⟨inp, toks, ind, nl⟩ := st
  simp only [LexSt.inp] at hin
  subst hin
  simp only [loadTokenCore, List.dropWhile_nil, List.head?_nil]
  rfl

theorem loadToken_no_nl (f : Nat) (st : LexSt) (hnl : st.newline = false) :
    loadToken (f + 1) st =
      (match loadTokenCore st with
       | .error e => .error e
       | .ok (.inl r) => .ok r
       | .ok (.inr st1) => loadToken f st1) := by
  simp only [loadToken, hnl, Bool.false_eq_true, if_false]

/-- Claim C6 (amended): `LoadToken` at end of input (with no pending
line-start processing) returns `Eof` when nothing has been emitted
yet, or when the previously emitted token is `Newline` or `Dedent`;
otherwise it synthesizes a `Newline` and the next call returns
`Eof`.  An empty source file yields the token stream `[Eof]`.
However, a file ending without a trailing newline does NOT always
get a `Newline` before `Eof`: a comment-only file emits no token
before end of input, so the nothing-emitted case applies and the
stream is just `[Eof]` (see `eof_comment_only_cex`). -/
theorem eof_handling (f : Nat) (st : LexSt)
    (hin : st.inp = []) (hnl : st.newline = false) :
    lexTokens "" = .ok [Tok.eof] ∧
    (st.toks = [] → loadToken (f + 1) st = .ok (Tok.eof, st)) ∧
    (st.toks.getLast? = some Tok.newline ∨ st.toks.getLast? = some Tok.dedent →
      loadToken (f + 1) st = .ok (Tok.eof, st)) ∧
    (st.toks ≠ [] → st.toks.getLast? ≠ some Tok.newline →
      st.toks.getLast? ≠ some Tok.dedent →
      loadToken (f + 1) st = .ok (Tok.newline, st) ∧
      loadToken (f + 1) { st with toks := st.toks ++ [Tok.newline] }
        = .ok (Tok.eof, { st with toks := st.toks ++ [Tok.newline] })) := by
  refine ⟨rfl, ?_, ?_, ?_⟩
  · intro h0
    rw [loadToken_no_nl f st hnl, loadTokenCore_eof st hin, if_pos h0]
  · intro hlast
    rw [loadToken_no_nl f st hnl, loadTokenCore_eof st hin]
    have h0 : st.toks ≠ [] := by
      rcases hlast with h | h <;> (intro he; rw [he] at h; simp at h)
    rw [if_neg h0, if_pos hlast]
  · intro h0 hn hd
    constructor
    · rw [loadToken_no_nl f st hnl, loadTokenCore_eof st hin, if_neg h0,
        if_neg (by rintro (h | h); exact hn h; exact hd h)]
    · rw [loadToken_no_nl f { st with toks := st.toks ++ [Tok.newline] } hnl,
        loadTokenCore_eof { st with toks := st.toks ++ [Tok.newline] } hin,
        if_neg (by simp), if_pos (Or.inl (by simp [List.getLast?_concat]))]

/-- Counterexample to Claim C6 as stated: the comment-only file
`"#c"` ends without a trailing newline, yet its token stream is
`[Eof]` — no synthesized `Newline` precedes the `Eof`. -/
theorem eof_comment_only_cex :
    lexTokens "#c" = .ok [Tok.eof] ∧
    ("#c".data.getLast? = some 'c') ∧
    Tok.newline ∉ [Tok.eof] :=
  ⟨rfl, rfl, by decide⟩

theorem eof_handling_witness :
    loadToken 3 { inp := [], toks := [Tok.id "a"], indent := 0, newline := false }
      = .ok (Tok.newline,
        { inp := [], toks := [Tok.id "a"], indent := 0, newline := false }) ∧
    loadToken 3 { inp := [], toks := [Tok.id "a", Tok.newline], indent := 0, newline := false }
      = .ok (Tok.eof,
        { inp := [], toks := [Tok.id "a", Tok.newline], indent := 0, newline := false }) :=
  (eof_handling 2 { inp := [], toks := [Tok.id "a"], indent := 0, newline := false }
    rfl rfl).2.2.2 (by simp) (by simp) (by simp)

end Mython
